import Mathlib

/-!
Shallow embedding of `src/analysis/src/code.rs` (the code-analysis engine of
the whackadep repository) and proofs about the claims on its behaviour.

Conventions of the embedding:
* Rust `u64` counters are modelled as `Nat` (the claims are about counting
  and summing structure; no claim exercises wrap-around).
* `HashMap`/`HashSet` caches are modelled as association lists / `Finset`s;
  the Rust code only ever inserts a key that is absent, so first-match lookup
  agrees with the hash-map semantics.
* File-system paths are modelled as lists of components; `Path.parent` drops
  the last component and fails on the empty path, mirroring
  `Utf8Path::parent` returning `None`.
* External collaborators (the `tokei` line counter, the `cargo geiger`
  subprocess, and the guppy package graph) are oracles passed in as explicit
  function/data parameters, mirroring the spec's "external collaborator"
  boundary.
* Fallible Rust functions returning `anyhow::Result` become `Except String`.
* Where a claim talks about how often an external collaborator is invoked,
  an instrumented variant of the function additionally returns the list of
  invocations (a ghost log); the instrumented variant projects onto the
  plain one.
-/

/-- Model of a file-system path as a list of components. -/
abbrev RPath := List String

/-- Embeds `Utf8Path::parent`: drop the final component; `none` when there is no
parent (empty path). -/
def RPath.parent (p : RPath) : Option RPath :=
  if p.isEmpty then none else some p.dropLast

/-- Embeds `LOCReport` from `code.rs`: line-of-code counts. -/
structure LOCReport where
  total_loc : Nat
  rust_loc : Nat
deriving DecidableEq

/-- Embeds `impl ops::Add<LOCReport> for LOCReport`: componentwise sum. -/
def LOCReport.add (a b : LOCReport) : LOCReport :=
  ⟨a.total_loc + b.total_loc, a.rust_loc + b.rust_loc⟩

/-- Embeds `UnsafeDetails` from `code.rs`. -/
structure UnsafeDetails where
  functions : Nat
  expressions : Nat
  impls : Nat
  traits : Nat
  methods : Nat
deriving DecidableEq

/-- Embeds `impl ops::Add<UnsafeDetails> for UnsafeDetails`, transcribed exactly as
written in the source: note that the `impls` component is computed as
`self.impls + rhs.expressions` (line 80 of `code.rs`). -/
def UnsafeDetails.add (a b : UnsafeDetails) : UnsafeDetails :=
  { functions := a.functions + b.functions
    expressions := a.expressions + b.expressions
    impls := a.impls + b.expressions
    traits := a.traits + b.traits
    methods := a.methods + b.methods }

/-- Embeds `UnsafeReport` from `code.rs`. -/
structure UnsafeReport where
  forbids_unsafe : Bool
  used_unsafe_count : UnsafeDetails
  unused_unsafe_count : UnsafeDetails
deriving DecidableEq

/-- Embeds `DepReport` from `code.rs`. -/
structure DepReport where
  total_deps : Nat
  deps_total_loc_report : LOCReport
  deps_with_build_script : Nat
  deps_analyzed_for_unsafe : Nat
  deps_forbidding_unsafe : Nat
  deps_using_unsafe : Nat
  deps_total_used_unsafe_details : UnsafeDetails
deriving DecidableEq

/-- Embeds `UnsafeCount` from the geiger JSON model in `code.rs` (the Rust field is
spelled `unsafe_`). -/
structure UnsafeCount where
  safe : Nat
  unsafe_cnt : Nat
deriving DecidableEq

/-- Embeds `UnsafeInfo` from the geiger JSON model. -/
structure UnsafeInfo where
  functions : UnsafeCount
  exprs : UnsafeCount
  item_impls : UnsafeCount
  item_traits : UnsafeCount
  methods : UnsafeCount
deriving DecidableEq

/-- Embeds `Unsafety` from the geiger JSON model. -/
structure Unsafety where
  used : UnsafeInfo
  unused : UnsafeInfo
  forbids_unsafe : Bool
deriving DecidableEq

/-- Embeds `GeigerPackageId` from the geiger JSON model. -/
structure GeigerPackageId where
  name : String
  version : String
deriving DecidableEq

/-- Embeds `GeigerPackage` from the geiger JSON model. -/
structure GeigerPackage where
  id : GeigerPackageId
deriving DecidableEq

/-- Embeds `GeigerPackageInfo` from the geiger JSON model. -/
structure GeigerPackageInfo where
  package : GeigerPackage
  unsafety : Unsafety
deriving DecidableEq

/-- Embeds `GeigerReport` from the geiger JSON model. -/
structure GeigerReport where
  packages : List GeigerPackageInfo
  used_but_not_scanned_files : List String
deriving DecidableEq

/-- A package of the guppy `PackageGraph`, as seen by `code.rs`: identity,
manifest path, build-script flag, and the identities at the `from` end of its
`reverse_direct_links` (its direct dependents in the whole graph). -/
structure PkgMeta where
  pid : Nat
  name : String
  version : String
  manifest_path : RPath
  has_build_script : Bool
  revDeps : List Nat
deriving DecidableEq

/-- Embeds `CodeReport` from `code.rs`. -/
structure CodeReport where
  name : String
  version : String
  is_direct : Bool
  has_build_script : Bool
  loc_report : Option LOCReport
  unsafe_report : Option UnsafeReport
  dep_report : Option DepReport
  exclusive_dep_report : Option DepReport
deriving DecidableEq

/-- The `loc_cache` field of `CodeAnalyzer` (a `HashMap<String, LOCReport>`),
as an association list keyed by directory path. -/
abbrev LocCache := List (RPath × LOCReport)

/-- The `geiger_cache` field of `CodeAnalyzer`
(a `HashMap<(String, String), GeigerPackageInfo>`). -/
abbrev GeigerCache := List ((String × String) × GeigerPackageInfo)

/-- The `package_deps` set of `filter_exclusive_deps`: the ids of the
dependency list plus the root's id. -/
def pkgDepsSet (package : PkgMeta) (deps : List PkgMeta) : Finset Nat :=
  insert package.pid (deps.map PkgMeta.pid).toFinset

/-- The per-dependency test of the `filter_exclusive_deps` loop: `dep` is
`unique` when every `from` end of its reverse direct links lies in
`package_deps` and is not in `common_deps`. -/
def depUnique (package_deps common_deps : Finset Nat) (dep : PkgMeta) : Bool :=
  dep.revDeps.all fun f => decide (f ∈ package_deps) && !decide (f ∈ common_deps)

/-- One iteration of the `filter_exclusive_deps` loop: a unique dependency is
appended to the exclusive map, otherwise its id joins `common_deps`. -/
def exclusiveStep (package_deps : Finset Nat) :
    Finset Nat × List PkgMeta → PkgMeta → Finset Nat × List PkgMeta
  | (common_deps, excl), dep =>
    if depUnique package_deps common_deps dep then (common_deps, excl ++ [dep])
    else (insert dep.pid common_deps, excl)

/-- Embeds `CodeAnalyzer::filter_exclusive_deps`: single pass over the dependency
list in input order, with sticky `common_deps`. -/
def filter_exclusive_deps (package : PkgMeta) (deps : List PkgMeta) : List PkgMeta :=
  (deps.foldl (exclusiveStep (pkgDepsSet package deps)) (∅, [])).2

/-- The resulting exclusive set, viewed as a set of package ids (the Rust
function returns the values of a `HashMap` keyed by id, i.e. a set). -/
def exclusive_ids (package : PkgMeta) (deps : List PkgMeta) : Finset Nat :=
  ((filter_exclusive_deps package deps).map PkgMeta.pid).toFinset

/-- Convenience constructor for graph packages in concrete instances. -/
def gpkg (i : Nat) (rd : List Nat) : PkgMeta :=
  ⟨i, "p" ++ toString i, "1.0.0", ["crates", toString i, "Cargo.toml"], false, rd⟩

/-- C1 counterexample input: the all-zero details. -/
def udZero : UnsafeDetails := ⟨0, 0, 0, 0, 0⟩

/-- C1 counterexample input: one unsafe expression, nothing else. -/
def udExpr : UnsafeDetails := ⟨0, 1, 0, 0, 0⟩

/-- C1: the addition on `UnsafeDetails` is NOT the componentwise sum and is
NOT commutative: with `a = udZero` and `b = udExpr`, `(a + b).impls = 1`
while `a.impls + b.impls = 0`, and `a + b ≠ b + a`.  The source computes the
`impls` component as `self.impls + rhs.expressions` (line 80 of `code.rs`),
a copy-paste slip; the repository's own spec calls the type an additive
monoid with componentwise sum. -/
theorem unsafeDetails_add_impls_divergence :
    ( UnsafeDetails.add udZero udExpr).impls = 1 ∧
    udZero.impls + udExpr.impls = 0 ∧
    UnsafeDetails.add udZero udExpr ≠ UnsafeDetails.add udExpr udZero := by
  decide

/-- C2 counterexample graph: root 0 depends on package 1; package 1 depends
on package 2; package 3 (outside the subtree) also depends on package 1.
Package 1 is shared (dependent 3 is outside M); package 2's only dependent
is package 1. -/
def c2Root : PkgMeta := gpkg 0 []

/-- C2 counterexample: the shared dependency (ids 0 and 3 depend on it). -/
def c2X : PkgMeta := gpkg 1 [0, 3]

/-- C2 counterexample: the dependency reachable only through `c2X`. -/
def c2Y : PkgMeta := gpkg 2 [1]

/-- C2: `filter_exclusive_deps` is NOT invariant under permutation of the
dependency list: on the graph where the root depends on X, X on Y, and an
outside package also depends on X, the input order `[X, Y]` yields the
exclusive set `∅` while the permuted order `[Y, X]` yields `{Y}`.  The
single pass consults the sticky `common_deps` set only for dependencies
processed later, so a dependency processed before its shared dependent
escapes the stickiness. -/
theorem filter_exclusive_deps_order_dependent :
    List.Perm [c2X, c2Y] [c2Y, c2X] ∧
    exclusive_ids c2Root [c2X, c2Y] = (∅ : Finset Nat) ∧
    exclusive_ids c2Root [c2Y, c2X] = ({2} : Finset Nat) ∧
    exclusive_ids c2Root [c2X, c2Y] ≠ exclusive_ids c2Root [c2Y, c2X] := by
  decide

/-- C3 diamond graph: root A (id 0) depends on B (1) and C (2); both B and C
depend on D (3). -/
def c3A : PkgMeta := gpkg 0 []

/-- C3 diamond: package B, dependent of the root only. -/
def c3B : PkgMeta := gpkg 1 [0]

/-- C3 diamond: package C, dependent of the root only. -/
def c3C : PkgMeta := gpkg 2 [0]

/-- C3 diamond: package D, with dependents B and C. -/
def c3D : PkgMeta := gpkg 3 [1, 2]

/-- C3 counterexample: in the diamond graph A → {B, C}, B → D, C → D, the
code does NOT classify D as shared: D is in the returned exclusive set, and
the result is `{B, C, D}`, not `{B, C}` as the claim states.  Both direct
dependents of D lie in M and are never put into `common_deps`, so the loop
marks D unique. -/
theorem filter_exclusive_deps_diamond_counterexample :
    3 ∈ exclusive_ids c3A [c3B, c3C, c3D] ∧
    exclusive_ids c3A [c3B, c3C, c3D] ≠ ({1, 2} : Finset Nat) := by
  decide

/-- C3 (amended): in the diamond graph the code classifies D as exclusive and
returns exclusive(A) = {B, C, D}: multiple internal paths from the root to D
do not make D shared, because sharing requires a dependent outside M. -/
theorem filter_exclusive_deps_diamond :
    exclusive_ids c3A [c3B, c3C, c3D] = ({1, 2, 3} : Finset Nat) := by
  decide

/-- Embeds `CodeAnalyzer::get_loc_report`, instrumented: besides the
`Result<LOCReport>` and the updated cache it returns the (ghost) list of
directories handed to the tokei line counter by this call.  The source takes
the parent of the manifest path (error when absent), returns a cached report
unchanged when the directory is already a key of `loc_cache`, and otherwise
scans, stores, and returns the scan result. -/
def get_loc_report_traced (tokei : RPath → LOCReport) (cache : LocCache)
    (manifest_path : RPath) :
    Except String (LOCReport × LocCache) × List RPath :=
  match RPath.parent manifest_path with
  | none => (.error "Cannot find parent directory of Cargo.toml", [])
  | some dir =>
    match cache.lookup dir with
    | some report => (.ok (report, cache), [])
    | none => (.ok (tokei dir, (dir, tokei dir) :: cache), [dir])

/-- Embeds `CodeAnalyzer::get_loc_report`: the un-instrumented view. -/
def get_loc_report (tokei : RPath → LOCReport) (cache : LocCache)
    (manifest_path : RPath) : Except String (LOCReport × LocCache) :=
  (get_loc_report_traced tokei cache manifest_path).1

/-- A run of successive `get_loc_report` calls (the call sites inside one
`analyze_code` run), returning the final cache and the concatenated ghost
scan log.  A call that fails (no parent directory) leaves the cache as is,
as in the source. -/
def loc_run (tokei : RPath → LOCReport) :
    List RPath → LocCache → LocCache × List RPath
  | [], cache => (cache, [])
  | p :: rest, cache =>
    let step := get_loc_report_traced tokei cache p
    let cache' := match step.1 with
      | .ok pr => pr.2
      | .error _ => cache
    let next := loc_run tokei rest cache'
    (next.1, step.2 ++ next.2)

/-- Embeds `CodeAnalyzer::get_cargo_geiger_report_from_cache`: plain lookup. -/
def get_cargo_geiger_report_from_cache (cache : GeigerCache)
    (key : String × String) : Option GeigerPackageInfo :=
  cache.lookup key

/-- The key of a geiger package record: `(name, version)`. -/
def geigerKey (gp : GeigerPackageInfo) : String × String :=
  (gp.package.id.name, gp.package.id.version)

/-- The merge loop of `get_cargo_geiger_report_for_workspace`: each returned
per-package record is inserted only when its key is absent from the cache. -/
def merge_geiger_packages (cache : GeigerCache)
    (pkgs : List GeigerPackageInfo) : GeigerCache :=
  pkgs.foldl
    (fun c gp =>
      match get_cargo_geiger_report_from_cache c (geigerKey gp) with
      | some _ => c
      | none => (geigerKey gp, gp) :: c)
    cache

/-- The per-path loop of `get_cargo_geiger_report_for_workspace`,
instrumented with the (ghost) list of paths on which the external scanner
was invoked.  `scanner` models `CodeAnalyzer::get_cargo_geiger_report`
(the `cargo geiger` subprocess plus JSON parsing); a failure aborts the loop
via `?`. -/
def geiger_workspace_loop (scanner : RPath → Except String GeigerReport) :
    List RPath → GeigerCache → Except String GeigerCache × List RPath
  | [], cache => (.ok cache, [])
  | path :: rest, cache =>
    match scanner path with
    | .error e => (.error e, [path])
    | .ok report =>
      let (res, log) := geiger_workspace_loop scanner rest
        (merge_geiger_packages cache report.packages)
      (res, path :: log)

/-- Embeds `CodeAnalyzer::get_cargo_geiger_report_for_workspace`: the
un-instrumented view, returning the updated geiger cache. -/
def get_cargo_geiger_report_for_workspace
    (scanner : RPath → Except String GeigerReport) (cache : GeigerCache)
    (package_paths : List RPath) : Except String GeigerCache :=
  (geiger_workspace_loop scanner package_paths cache).1

/-- Embeds `CodeAnalyzer::get_unsafe_report`: pure lookup in the geiger cache,
translated into an `UnsafeReport`; absent stays absent. -/
def get_unsafe_report (cache : GeigerCache) (name version : String) :
    Option UnsafeReport :=
  match get_cargo_geiger_report_from_cache cache (name, version) with
  | none => none
  | some gpi =>
    some
      ⟨ Unsafety.forbids_unsafe gpi.unsafety,
        ⟨gpi.unsafety.used.functions.unsafe_cnt,
         gpi.unsafety.used.exprs.unsafe_cnt,
         gpi.unsafety.used.item_impls.unsafe_cnt,
         gpi.unsafety.used.item_traits.unsafe_cnt,
         gpi.unsafety.used.methods.unsafe_cnt⟩,
        ⟨gpi.unsafety.unused.functions.unsafe_cnt,
         gpi.unsafety.unused.exprs.unsafe_cnt,
         gpi.unsafety.unused.item_impls.unsafe_cnt,
         gpi.unsafety.unused.item_traits.unsafe_cnt,
         gpi.unsafety.unused.methods.unsafe_cnt⟩⟩

/-- The accumulation loop of `CodeAnalyzer::get_dep_report`: one iteration
adds the package's LOC report, and — only when the geiger cache has a record
for the package — bumps `deps_analyzed_for_unsafe`, bumps either
`deps_forbidding_unsafe` or (when unsafe expressions are used)
`deps_using_unsafe`, and adds the used unsafe counts; `has_build_script` is
counted independently. -/
def get_dep_report_loop (tokei : RPath → LOCReport) (gcache : GeigerCache) :
    List PkgMeta → DepReport → LocCache → Except String (DepReport × LocCache)
  | [], acc, cache => .ok (acc, cache)
  | package :: rest, acc, cache =>
    match get_loc_report tokei cache package.manifest_path with
    | .error e => .error e
    | .ok (loc_report, cache') =>
      let acc1 := { acc with
        deps_total_loc_report :=
          LOCReport.add acc.deps_total_loc_report loc_report }
      let acc2 :=
        match get_unsafe_report gcache package.name package.version with
        | none => acc1
        | some ur =>
          let a := { acc1 with
            deps_analyzed_for_unsafe :=
              DepReport.deps_analyzed_for_unsafe acc1 + 1 }
          let b :=
            if UnsafeReport.forbids_unsafe ur then
              { a with
                deps_forbidding_unsafe :=
                  DepReport.deps_forbidding_unsafe a + 1 }
            else if 0 < ur.used_unsafe_count.expressions then
              { a with
                deps_using_unsafe := DepReport.deps_using_unsafe a + 1 }
            else a
          { b with
            deps_total_used_unsafe_details :=
              UnsafeDetails.add b.deps_total_used_unsafe_details
                ur.used_unsafe_count }
      let acc3 :=
        if package.has_build_script then
          { acc2 with
            deps_with_build_script := acc2.deps_with_build_script + 1 }
        else acc2
      get_dep_report_loop tokei gcache rest acc3 cache'

/-- Embeds `CodeAnalyzer::get_dep_report`: `total_deps` is the length of the input
list; the remaining counters start at zero and are accumulated by the
loop. -/
def get_dep_report (tokei : RPath → LOCReport) (gcache : GeigerCache)
    (cache : LocCache) (dependencies : List PkgMeta) :
    Except String (DepReport × LocCache) :=
  get_dep_report_loop tokei gcache dependencies
    ⟨dependencies.length, ⟨0, 0⟩, 0, 0, 0, 0, udZero⟩ cache

/-- The guppy `PackageGraph` as seen by `analyze_code`, as oracle data: the
manifest paths of the workspace members, the direct (non-workspace)
dependencies of the workspace, and for each package id the transitive
dependency list computed by `get_package_dependencies`. -/
structure PkgGraph where
  workspace_paths : List RPath
  direct_dependencies : List PkgMeta
  package_dependencies : Nat → List PkgMeta

/-- The per-direct-dependency loop of `CodeAnalyzer::analyze_code`: for each
direct dependency, its own LOC report, its optional unsafe report, the
aggregated report over all of its dependencies, and the aggregated report
over its exclusive dependencies, assembled into a `CodeReport` with
`is_direct = true`. -/
def analyze_loop (tokei : RPath → LOCReport) (gcache : GeigerCache)
    (graph : PkgGraph) :
    List PkgMeta → LocCache → Except String (List CodeReport × LocCache)
  | [], cache => .ok ([], cache)
  | package :: rest, cache =>
    match get_loc_report tokei cache package.manifest_path with
    | .error e => .error e
    | .ok (loc_report, cache1) =>
      let unsafety_report := get_unsafe_report gcache package.name package.version
      let dependencies := graph.package_dependencies package.pid
      match get_dep_report tokei gcache cache1 dependencies with
      | .error e => .error e
      | .ok (dep_report, cache2) =>
        let exclusive_dependencies := filter_exclusive_deps package dependencies
        match get_dep_report tokei gcache cache2 exclusive_dependencies with
        | .error e => .error e
        | .ok (excl_dep_report, cache3) =>
          match analyze_loop tokei gcache graph rest cache3 with
          | .error e => .error e
          | .ok (reports, cache4) =>
            .ok
              (⟨package.name, package.version, true, package.has_build_script,
                some loc_report, unsafety_report, some dep_report,
                some excl_dep_report⟩ :: reports,
               cache4)

/-- Embeds `CodeAnalyzer::analyze_code`: run the geiger scanner over every
workspace member first (fatal on failure), then assemble one `CodeReport`
per direct dependency of the workspace. -/
def analyze_code (scanner : RPath → Except String GeigerReport)
    (tokei : RPath → LOCReport) (loc_cache : LocCache)
    (geiger_cache : GeigerCache) (graph : PkgGraph) :
    Except String (List CodeReport) :=
  match get_cargo_geiger_report_for_workspace scanner geiger_cache
      graph.workspace_paths with
  | .error e => .error e
  | .ok gcache =>
    match analyze_loop tokei gcache graph graph.direct_dependencies loc_cache with
    | .error e => .error e
    | .ok (reports, _) => .ok reports

/-- Unfolding of association-list lookup at a cons cell. -/
theorem lookup_cons_unfold {α β : Type} [BEq α] (k k' : α) (v' : β)
    (l : List (α × β)) :
    List.lookup k ((k', v') :: l) =
      if k == k' then some v' else List.lookup k l := by
  cases h : k == k' <;> simp [List.lookup, h]

/-- Merging geiger records never overwrites an existing cache entry. -/
theorem merge_geiger_preserves (pkgs : List GeigerPackageInfo) :
    ∀ (cache : GeigerCache) (k : String × String) (v : GeigerPackageInfo),
      get_cargo_geiger_report_from_cache cache k = some v →
      get_cargo_geiger_report_from_cache (merge_geiger_packages cache pkgs) k =
        some v := by
  induction pkgs with
  | nil => intro cache k v h; simpa [merge_geiger_packages] using h
  | cons gp rest ih =>
    intro cache k v h
    have hstep :
        merge_geiger_packages cache (gp :: rest) =
          merge_geiger_packages
            (match get_cargo_geiger_report_from_cache cache (geigerKey gp) with
             | some _ => cache
             | none => (geigerKey gp, gp) :: cache) rest := by
      simp [merge_geiger_packages]
    rw [hstep]
    cases hk : get_cargo_geiger_report_from_cache cache (geigerKey gp) with
    | some w => simp only [hk]; exact ih cache k v h
    | none =>
      simp only [hk]
      apply ih
      have hne : (k == geigerKey gp) = false := by
        cases hb : k == geigerKey gp with
        | true =>
          have hkv : get_cargo_geiger_report_from_cache cache (geigerKey gp) =
              some v := by
            rw [← eq_of_beq hb]; exact h
          simp [hkv] at hk
        | false => rfl
      simpa [get_cargo_geiger_report_from_cache, lookup_cons_unfold, hne]
        using h

/-- When the key is absent, the merge stores the first matching record of
the incoming list (and only that one). -/
theorem merge_geiger_first_wins (pkgs : List GeigerPackageInfo) :
    ∀ (cache : GeigerCache) (k : String × String),
      get_cargo_geiger_report_from_cache cache k = none →
      get_cargo_geiger_report_from_cache (merge_geiger_packages cache pkgs) k =
        pkgs.find? (fun gp => geigerKey gp == k) := by
  induction pkgs with
  | nil => intro cache k h; simpa [merge_geiger_packages] using h
  | cons gp rest ih =>
    intro cache k h
    have hstep :
        merge_geiger_packages cache (gp :: rest) =
          merge_geiger_packages
            (match get_cargo_geiger_report_from_cache cache (geigerKey gp) with
             | some _ => cache
             | none => (geigerKey gp, gp) :: cache) rest := by
      simp [merge_geiger_packages]
    rw [hstep]
    cases hmatch : (geigerKey gp == k) with
    | true =>
      have hkey : geigerKey gp = k := eq_of_beq hmatch
      rw [← hkey] at h
      simp only [h, List.find?_cons, hmatch]
      apply merge_geiger_preserves
      simp [get_cargo_geiger_report_from_cache, lookup_cons_unfold, hkey]
    | false =>
      simp only [List.find?_cons, hmatch]
      cases hk : get_cargo_geiger_report_from_cache cache (geigerKey gp) with
      | some w => simp only [hk]; exact ih cache k h
      | none =>
        simp only [hk]
        apply ih
        have hne : (k == geigerKey gp) = false := by
          cases hb : k == geigerKey gp with
          | true => rw [eq_of_beq hb] at hmatch; simp at hmatch
          | false => rfl
        simpa [get_cargo_geiger_report_from_cache, lookup_cons_unfold, hne]
          using h

/-- The per-workspace geiger loop never drops or overwrites an entry the
cache already holds. -/
theorem geiger_workspace_preserves (scanner : RPath → Except String GeigerReport)
    (paths : List RPath) :
    ∀ (cache c' : GeigerCache) (k : String × String) (v : GeigerPackageInfo),
      get_cargo_geiger_report_from_cache cache k = some v →
      (geiger_workspace_loop scanner paths cache).1 = .ok c' →
      get_cargo_geiger_report_from_cache c' k = some v := by
  induction paths with
  | nil =>
    intro cache c' k v h hok
    simp only [geiger_workspace_loop] at hok
    cases hok
    exact h
  | cons p rest ih =>
    intro cache c' k v h hok
    simp only [geiger_workspace_loop] at hok
    cases hs : scanner p with
    | error e => rw [hs] at hok; cases hok
    | ok report =>
      rw [hs] at hok
      exact ih _ c' k v (merge_geiger_preserves report.packages cache k v h) hok

/-- C8: the geiger cache is write-once per `(name, version)` key: merging
scanner results never overwrites an existing entry, the first record for an
absent key wins, and the whole per-workspace scanner loop preserves every
pre-existing entry. -/
theorem geiger_cache_write_once :
    (∀ (cache : GeigerCache) (pkgs : List GeigerPackageInfo)
        (k : String × String) (v : GeigerPackageInfo),
      get_cargo_geiger_report_from_cache cache k = some v →
      get_cargo_geiger_report_from_cache (merge_geiger_packages cache pkgs) k =
        some v) ∧
    (∀ (cache : GeigerCache) (pkgs : List GeigerPackageInfo)
        (k : String × String),
      get_cargo_geiger_report_from_cache cache k = none →
      get_cargo_geiger_report_from_cache (merge_geiger_packages cache pkgs) k =
        pkgs.find? fun gp => geigerKey gp == k) ∧
    (∀ (scanner : RPath → Except String GeigerReport) (paths : List RPath)
        (cache c' : GeigerCache) (k : String × String) (v : GeigerPackageInfo),
      get_cargo_geiger_report_from_cache cache k = some v →
      get_cargo_geiger_report_for_workspace scanner cache paths = .ok c' →
      get_cargo_geiger_report_from_cache c' k = some v) :=
  ⟨fun cache pkgs k v h => merge_geiger_preserves pkgs cache k v h,
   fun cache pkgs k h => merge_geiger_first_wins pkgs cache k h,
   fun scanner paths cache c' k v h hok =>
     geiger_workspace_preserves scanner paths cache c' k v h hok⟩

/-- Concrete all-zero geiger count. -/
def wUC : UnsafeCount := ⟨0, 0⟩

/-- Concrete all-zero geiger info. -/
def wUI : UnsafeInfo := ⟨wUC, wUC, wUC, wUC, wUC⟩

/-- Concrete geiger record for package (a, 1.0), forbidding. -/
def wGp1 : GeigerPackageInfo := ⟨⟨⟨"a", "1.0"⟩⟩, ⟨wUI, wUI, true⟩⟩

/-- A second, diverging geiger record for the same identity (a, 1.0). -/
def wGp2 : GeigerPackageInfo := ⟨⟨⟨"a", "1.0"⟩⟩, ⟨wUI, wUI, false⟩⟩

/-- A cache already holding the first record for (a, 1.0). -/
def wGCache : GeigerCache := [(("a", "1.0"), wGp1)]

/-- C8 witness: merging a diverging record for an identity that already has
a cache entry leaves the first entry in place. -/
theorem geiger_cache_write_once_witness :
    get_cargo_geiger_report_from_cache (merge_geiger_packages wGCache [wGp2])
      ("a", "1.0") = some wGp1 :=
  geiger_cache_write_once.1 wGCache [wGp2] ("a", "1.0") wGp1 (by decide)

/-- The invocation log of the geiger loop is always an initial segment of
the path list: each workspace root is scanned at most once, in order, and
the loop stops at the first failure. -/
theorem geiger_loop_log_initial (scanner : RPath → Except String GeigerReport)
    (paths : List RPath) :
    ∀ cache : GeigerCache,
      ∃ k, (geiger_workspace_loop scanner paths cache).2 = paths.take k := by
  induction paths with
  | nil => intro cache; exact ⟨0, rfl⟩
  | cons p rest ih =>
    intro cache
    cases hs : scanner p with
    | error e =>
      refine ⟨1, ?_⟩
      simp [geiger_workspace_loop, hs]
    | ok report =>
      obtain ⟨k, hk⟩ := ih (merge_geiger_packages cache report.packages)
      refine ⟨k + 1, ?_⟩
      simp [geiger_workspace_loop, hs, hk]

/-- If the scanner fails on any path of the list, the geiger loop returns an
error. -/
theorem geiger_loop_error_of_failure
    (scanner : RPath → Except String GeigerReport) (paths : List RPath)
    (p : RPath) (e : String) :
    ∀ cache : GeigerCache, p ∈ paths → scanner p = .error e →
      ∃ msg, (geiger_workspace_loop scanner paths cache).1 = .error msg := by
  induction paths with
  | nil => intro cache hp; cases hp
  | cons q rest ih =>
    intro cache hp he
    cases hs : scanner q with
    | error e' =>
      refine ⟨e', ?_⟩
      simp [geiger_workspace_loop, hs]
    | ok report =>
      cases hp with
      | head => rw [he] at hs; cases hs
      | tail _ hmem =>
        obtain ⟨msg, hmsg⟩ :=
          ih (merge_geiger_packages cache report.packages) hmem he
        refine ⟨msg, ?_⟩
        simp [geiger_workspace_loop, hs, hmsg]

/-- C9: if the external scanner fails (non-zero exit or unparsable output,
modelled as `.error`) on any workspace root, the whole `analyze_code` run
returns an error — no list of `CodeReport`s is produced at all — and the
scanner invocation log is an initial segment of the root list (so with
distinct roots no root, in particular no failed one, is invoked twice: the
failure is not retried). -/
theorem analyze_code_scanner_failure
    (scanner : RPath → Except String GeigerReport) (tokei : RPath → LOCReport)
    (lc : LocCache) (gc : GeigerCache) (graph : PkgGraph) (p : RPath)
    (e : String) (hp : p ∈ graph.workspace_paths)
    (he : scanner p = .error e) :
    (∃ msg, analyze_code scanner tokei lc gc graph = .error msg) ∧
    (∀ reports, analyze_code scanner tokei lc gc graph ≠ .ok reports) ∧
    (∃ k, (geiger_workspace_loop scanner graph.workspace_paths gc).2 =
      graph.workspace_paths.take k) ∧
    (graph.workspace_paths.Nodup →
      ((geiger_workspace_loop scanner graph.workspace_paths gc).2).Nodup) := by
  obtain ⟨msg, hmsg⟩ :=
    geiger_loop_error_of_failure scanner graph.workspace_paths p e gc hp he
  have hfail : analyze_code scanner tokei lc gc graph = .error msg := by
    simp [analyze_code, get_cargo_geiger_report_for_workspace, hmsg]
  refine ⟨⟨msg, hfail⟩, ?_, ?_, ?_⟩
  · intro reports hok
    rw [hfail] at hok
    cases hok
  · exact geiger_loop_log_initial scanner graph.workspace_paths gc
  · intro hnd
    obtain ⟨k, hk⟩ := geiger_loop_log_initial scanner graph.workspace_paths gc
    rw [hk]
    exact hnd.sublist (List.take_sublist k graph.workspace_paths)

/-- A scanner that always fails. -/
def wFailScanner : RPath → Except String GeigerReport :=
  fun _ => .error "Error in running cargo geiger"

/-- A line counter returning a fixed report. -/
def wTokei : RPath → LOCReport := fun _ => ⟨10, 5⟩

/-- A one-member workspace graph with no direct dependencies. -/
def wGraph9 : PkgGraph := ⟨[["w", "Cargo.toml"]], [], fun _ => []⟩

/-- C9 witness: on a concrete workspace whose only root fails to scan, the
run errors, produces no report list, and invokes the scanner exactly on an
initial segment of the root list. -/
theorem analyze_code_scanner_failure_witness :
    (∃ msg, analyze_code wFailScanner wTokei [] [] wGraph9 = .error msg) ∧
    (∀ reports, analyze_code wFailScanner wTokei [] [] wGraph9 ≠ .ok reports) ∧
    (∃ k, (geiger_workspace_loop wFailScanner wGraph9.workspace_paths []).2 =
      wGraph9.workspace_paths.take k) ∧
    (wGraph9.workspace_paths.Nodup →
      ((geiger_workspace_loop wFailScanner wGraph9.workspace_paths []).2).Nodup) :=
  analyze_code_scanner_failure wFailScanner wTokei [] [] wGraph9
    ["w", "Cargo.toml"] "Error in running cargo geiger"
    (by simp [wGraph9]) rfl

/-- Every report assembled by the `analyze_loop` has `is_direct = true` and
all of `loc_report`, `dep_report`, `exclusive_dep_report` present. -/
theorem analyze_loop_shape (tokei : RPath → LOCReport) (gcache : GeigerCache)
    (graph : PkgGraph) (deps : List PkgMeta) :
    ∀ (cache : LocCache) (reports : List CodeReport) (cache' : LocCache),
      analyze_loop tokei gcache graph deps cache = .ok (reports, cache') →
      ∀ r ∈ reports,
        r.is_direct = true ∧ r.loc_report.isSome ∧ r.dep_report.isSome ∧
          (CodeReport.exclusive_dep_report r).isSome := by
  induction deps with
  | nil =>
    intro cache reports cache' h r hr
    simp only [analyze_loop] at h
    cases h
    cases hr
  | cons package rest ih =>
    intro cache reports cache' h r hr
    simp only [analyze_loop] at h
    split at h
    · cases h
    next loc_report cache1 hloc =>
      split at h
      · cases h
      next dep_report cache2 hdep =>
        split at h
        · cases h
        next excl_dep_report cache3 hexcl =>
          split at h
          · cases h
          next reports0 cache4 hrest =>
            cases h
            cases hr with
            | head => exact ⟨rfl, rfl, rfl, rfl⟩
            | tail _ hmem => exact ih _ _ _ hrest r hmem

/-- C10: every `CodeReport` produced by a successful `analyze_code` run has
`is_direct = true` and has `loc_report`, `dep_report` and
`exclusive_dep_report` all present; only `unsafe_report` (an `Option` the
code passes through unchanged) may be absent. -/
theorem analyze_code_report_shape
    (scanner : RPath → Except String GeigerReport) (tokei : RPath → LOCReport)
    (lc : LocCache) (gc : GeigerCache) (graph : PkgGraph)
    (reports : List CodeReport)
    (h : analyze_code scanner tokei lc gc graph = .ok reports) :
    ∀ r ∈ reports,
      r.is_direct = true ∧ r.loc_report.isSome ∧ r.dep_report.isSome ∧
        (CodeReport.exclusive_dep_report r).isSome := by
  simp only [analyze_code] at h
  split at h
  · cases h
  next gcache hws =>
    split at h
    · cases h
    next reports0 cacheF hloop =>
      cases h
      exact analyze_loop_shape tokei gcache graph graph.direct_dependencies
        lc _ _ hloop

/-- A scanner that succeeds with an empty report. -/
def wOkScanner : RPath → Except String GeigerReport := fun _ => .ok ⟨[], []⟩

/-- A concrete direct dependency with no dependencies of its own. -/
def wDep : PkgMeta := ⟨1, "p1", "1.0.0", ["crates", "one", "Cargo.toml"], false, []⟩

/-- A graph with no workspace scans and one direct dependency. -/
def wGraph10 : PkgGraph := ⟨[], [wDep], fun _ => []⟩

/-- The dependency report of an empty dependency list. -/
def wZeroDR : DepReport := ⟨0, ⟨0, 0⟩, 0, 0, 0, 0, udZero⟩

/-- The report `analyze_code` produces for `wDep`. -/
def wReport10 : CodeReport :=
  ⟨"p1", "1.0.0", true, false, some ⟨10, 5⟩, none, some wZeroDR, some wZeroDR⟩

/-- C10 witness: on a concrete one-dependency graph the produced report has
`is_direct = true` and the three mandatory sub-reports present. -/
theorem analyze_code_report_shape_witness :
    wReport10.is_direct = true ∧ wReport10.loc_report.isSome ∧
      wReport10.dep_report.isSome ∧
      (CodeReport.exclusive_dep_report wReport10).isSome :=
  analyze_code_report_shape wOkScanner wTokei [] [] wGraph10 [wReport10] rfl
    wReport10 (List.mem_singleton.mpr rfl)

/-- The boolean uniqueness test, as a proposition. -/
theorem depUnique_iff (pd c : Finset Nat) (d : PkgMeta) :
    depUnique pd c d = true ↔ ∀ f ∈ d.revDeps, f ∈ pd ∧ f ∉ c := by
  simp [depUnique, List.all_eq_true]

/-- The loop step, written with projections of an arbitrary state pair. -/
theorem exclusiveStep_eq (pd : Finset Nat) (s : Finset Nat × List PkgMeta)
    (dep : PkgMeta) :
    exclusiveStep pd s dep =
      if depUnique pd s.1 dep then (s.1, s.2 ++ [dep])
      else (insert dep.pid s.1, s.2) := by
  cases s with
  | mk c e => rfl

/-- Every element of the exclusive accumulator after a fold came from the
initial accumulator or from the processed list. -/
theorem excl_foldl_mem (M : Finset Nat) (l : List PkgMeta) :
    ∀ (c : Finset Nat) (e : List PkgMeta) (q : PkgMeta),
      q ∈ (l.foldl (exclusiveStep M) (c, e)).2 → q ∈ e ∨ q ∈ l := by
  induction l with
  | nil => intro c e q h; exact Or.inl h
  | cons d rest ih =>
    intro c e q h
    rw [List.foldl_cons] at h
    cases hu : depUnique M c d with
    | true =>
      rw [show exclusiveStep M (c, e) d = (c, e ++ [d]) by
        simp [exclusiveStep, hu]] at h
      rcases ih c (e ++ [d]) q h with hq | hq
      · rcases List.mem_append.mp hq with hq' | hq'
        · exact Or.inl hq'
        · exact Or.inr (by simp at hq'; simp [hq'])
      · exact Or.inr (List.mem_cons_of_mem d hq)
    | false =>
      rw [show exclusiveStep M (c, e) d = (insert d.pid c, e) by
        simp [exclusiveStep, hu]] at h
      rcases ih (insert d.pid c) e q h with hq | hq
      · exact Or.inl hq
      · exact Or.inr (List.mem_cons_of_mem d hq)

/-- The exclusive accumulator only grows along the fold. -/
theorem excl_foldl_grow (M : Finset Nat) (l : List PkgMeta) :
    ∀ (c : Finset Nat) (e : List PkgMeta) (q : PkgMeta),
      q ∈ e → q ∈ (l.foldl (exclusiveStep M) (c, e)).2 := by
  induction l with
  | nil => intro c e q h; exact h
  | cons d rest ih =>
    intro c e q h
    rw [List.foldl_cons]
    cases hu : depUnique M c d with
    | true =>
      rw [show exclusiveStep M (c, e) d = (c, e ++ [d]) by
        simp [exclusiveStep, hu]]
      exact ih c (e ++ [d]) q (List.mem_append_left _ h)
    | false =>
      rw [show exclusiveStep M (c, e) d = (insert d.pid c, e) by
        simp [exclusiveStep, hu]]
      exact ih (insert d.pid c) e q h

/-- The common (shared) accumulator only grows along the fold. -/
theorem common_foldl_grow (M : Finset Nat) (l : List PkgMeta) :
    ∀ (c : Finset Nat) (e : List PkgMeta) (x : Nat),
      x ∈ c → x ∈ (l.foldl (exclusiveStep M) (c, e)).1 := by
  induction l with
  | nil => intro c e x h; exact h
  | cons d rest ih =>
    intro c e x h
    rw [List.foldl_cons]
    cases hu : depUnique M c d with
    | true =>
      rw [show exclusiveStep M (c, e) d = (c, e ++ [d]) by
        simp [exclusiveStep, hu]]
      exact ih c (e ++ [d]) x h
    | false =>
      rw [show exclusiveStep M (c, e) d = (insert d.pid c, e) by
        simp [exclusiveStep, hu]]
      exact ih (insert d.pid c) e x (Finset.mem_insert_of_mem h)

/-- C4: with distinct package ids, a dependency `d` of the list
`pre ++ d :: post` ends up in the exclusive set computed by
`filter_exclusive_deps` exactly when every direct dependent of `d` lies in
the membership set M (the dependency ids plus the root) and none of them is
in the sticky `common_deps` set accumulated over the dependencies processed
before `d` ("already known to be shared").  The criterion inspects only
membership of the dependents, so multiple internal paths from the root to
`d` never make `d` shared; and when some dependent is outside M or already
shared, `d`'s id lands in the final `common_deps` set (shared status is
sticky). -/
theorem filter_exclusive_deps_characterization (R d : PkgMeta)
    (pre post : List PkgMeta)
    (hnd : ((pre ++ d :: post).map PkgMeta.pid).Nodup) :
    (d.pid ∈ exclusive_ids R (pre ++ d :: post) ↔
      ∀ f ∈ d.revDeps, f ∈ pkgDepsSet R (pre ++ d :: post) ∧
        f ∉ (pre.foldl (exclusiveStep (pkgDepsSet R (pre ++ d :: post)))
              (∅, [])).1) ∧
    ((¬ ∀ f ∈ d.revDeps, f ∈ pkgDepsSet R (pre ++ d :: post) ∧
        f ∉ (pre.foldl (exclusiveStep (pkgDepsSet R (pre ++ d :: post)))
              (∅, [])).1) →
      d.pid ∈ ((pre ++ d :: post).foldl
        (exclusiveStep (pkgDepsSet R (pre ++ d :: post))) (∅, [])).1) := by
  set M := pkgDepsSet R (pre ++ d :: post) with hM
  set s1 := pre.foldl (exclusiveStep M) (∅, ([] : List PkgMeta)) with hs1
  have hfold : ∀ init : Finset Nat × List PkgMeta,
      (pre ++ d :: post).foldl (exclusiveStep M) init =
        post.foldl (exclusiveStep M) (exclusiveStep M
          (pre.foldl (exclusiveStep M) init) d) := by
    intro init
    rw [List.foldl_append, List.foldl_cons]
  have hpid_pre : d.pid ∉ pre.map PkgMeta.pid := by
    have hdisj := List.disjoint_of_nodup_append (by
      rwa [List.map_append] at hnd)
    intro hc
    exact hdisj hc (by simp)
  have hpid_post : d.pid ∉ post.map PkgMeta.pid := by
    have h2 := List.Nodup.of_append_right (by
      rwa [List.map_append] at hnd)
    rw [List.map_cons] at h2
    exact (List.nodup_cons.mp h2).1
  constructor
  · constructor
    · intro hmem
      rw [← depUnique_iff]
      unfold exclusive_ids filter_exclusive_deps at hmem
      rw [← hM, hfold] at hmem
      rw [List.mem_toFinset] at hmem
      obtain ⟨q, hq, hqid⟩ := List.mem_map.mp hmem
      cases hu : depUnique M s1.1 d with
      | true => rfl
      | false =>
        exfalso
        have hstep : exclusiveStep M s1 d = (insert d.pid s1.1, s1.2) := by
          simp [exclusiveStep_eq, hu]
        rw [hstep] at hq
        rcases excl_foldl_mem M post (insert d.pid s1.1) s1.2 q hq
          with hq' | hq'
        · rcases excl_foldl_mem M pre ∅ [] q (by rw [← hs1]; exact hq')
            with hq'' | hq''
          · cases hq''
          · exact hpid_pre (hqid ▸ List.mem_map_of_mem PkgMeta.pid hq'')
        · exact hpid_post (hqid ▸ List.mem_map_of_mem PkgMeta.pid hq')
    · intro hcond
      have hu : depUnique M s1.1 d = true := (depUnique_iff _ _ _).mpr hcond
      have hstep : exclusiveStep M s1 d = (s1.1, s1.2 ++ [d]) := by
        simp [exclusiveStep_eq, hu]
      unfold exclusive_ids filter_exclusive_deps
      rw [← hM, hfold, ← hs1, hstep, List.mem_toFinset]
      exact List.mem_map_of_mem PkgMeta.pid
        (excl_foldl_grow M post s1.1 (s1.2 ++ [d]) d (by simp))
  · intro hcond
    have hu : depUnique M s1.1 d = false := by
      cases hb : depUnique M s1.1 d with
      | true => exact absurd ((depUnique_iff _ _ _).mp hb) hcond
      | false => rfl
    have hstep : exclusiveStep M s1 d = (insert d.pid s1.1, s1.2) := by
      simp [exclusiveStep_eq, hu]
    rw [hfold, ← hs1, hstep]
    exact common_foldl_grow M post (insert d.pid s1.1) s1.2 d.pid
      (Finset.mem_insert_self _ _)

/-- C4 witness: the single dependency `gpkg 1 [0]` of root `gpkg 0 []` (its
only dependent is the root) is exclusive, instantiating the
characterization with `pre = post = []`. -/
theorem filter_exclusive_deps_characterization_witness :
    ((gpkg 1 [0]).pid ∈ exclusive_ids (gpkg 0 []) [gpkg 1 [0]] ↔
      ∀ f ∈ (gpkg 1 [0]).revDeps,
        f ∈ pkgDepsSet (gpkg 0 []) [gpkg 1 [0]] ∧ f ∉ (∅ : Finset Nat)) ∧
    ((¬ ∀ f ∈ (gpkg 1 [0]).revDeps,
        f ∈ pkgDepsSet (gpkg 0 []) [gpkg 1 [0]] ∧ f ∉ (∅ : Finset Nat)) →
      (gpkg 1 [0]).pid ∈ (List.foldl
        (exclusiveStep (pkgDepsSet (gpkg 0 []) [gpkg 1 [0]])) (∅, [])
        [gpkg 1 [0]]).1) :=
  filter_exclusive_deps_characterization (gpkg 0 []) (gpkg 1 [0]) [] []
    (by decide)

/-- A package has a present unsafe report in the geiger cache. -/
def analyzed_pred (g : GeigerCache) (p : PkgMeta) : Bool :=
  (get_unsafe_report g p.name p.version).isSome

/-- A package has a present unsafe report that forbids unsafe code. -/
def forbids_pred (g : GeigerCache) (p : PkgMeta) : Bool :=
  match get_unsafe_report g p.name p.version with
  | some ur => UnsafeReport.forbids_unsafe ur
  | none => false

/-- A package has a present unsafe report that does not forbid unsafe code
and has used unsafe expressions. -/
def using_pred (g : GeigerCache) (p : PkgMeta) : Bool :=
  match get_unsafe_report g p.name p.version with
  | some ur =>
    ! UnsafeReport.forbids_unsafe ur &&
      decide (0 < ur.used_unsafe_count.expressions)
  | none => false

/-- The fold of the source's `+` over the `used` counts of all present
unsafe reports of the list, in list order. -/
def summed_used (g : GeigerCache) (deps : List PkgMeta)
    (init : UnsafeDetails) : UnsafeDetails :=
  deps.foldl
    (fun acc p =>
      match get_unsafe_report g p.name p.version with
      | some ur => UnsafeDetails.add acc ur.used_unsafe_count
      | none => acc)
    init

/-- The counter fields of the dependency-report loop: each present report
bumps the analyzed counter, forbidding reports bump the forbidding counter,
non-forbidding users bump the using counter, and used details are folded
with the source's addition; `total_deps` is never touched. -/
theorem get_dep_report_loop_counters (tokei : RPath → LOCReport)
    (gcache : GeigerCache) (l : List PkgMeta) :
    ∀ (acc : DepReport) (cache : LocCache) (r : DepReport) (c : LocCache),
      get_dep_report_loop tokei gcache l acc cache = .ok (r, c) →
      DepReport.total_deps r = DepReport.total_deps acc ∧
      DepReport.deps_analyzed_for_unsafe r =
        DepReport.deps_analyzed_for_unsafe acc +
          l.countP (analyzed_pred gcache) ∧
      DepReport.deps_forbidding_unsafe r =
        DepReport.deps_forbidding_unsafe acc +
          l.countP (forbids_pred gcache) ∧
      DepReport.deps_using_unsafe r =
        DepReport.deps_using_unsafe acc + l.countP (using_pred gcache) ∧
      DepReport.deps_total_used_unsafe_details r =
        summed_used gcache l (DepReport.deps_total_used_unsafe_details acc) := by
  induction l with
  | nil =>
    intro acc cache r c h
    simp only [get_dep_report_loop] at h
    cases h
    simp [summed_used]
  | cons package rest ih =>
    intro acc cache r c h
    cases hloc : get_loc_report tokei cache package.manifest_path with
    | error e =>
      rw [show get_dep_report_loop tokei gcache (package :: rest) acc cache =
        .error e by simp [get_dep_report_loop, hloc]] at h
      cases h
    | ok locpair =>
      obtain ⟨loc_report, cache1⟩ := locpair
      cases hur : get_unsafe_report gcache package.name package.version with
      | none =>
        cases hbs : package.has_build_script with
        | true =>
          simp only [get_dep_report_loop, hloc, hur, hbs, if_true] at h
          obtain ⟨e1, e2, e3, e4, e5⟩ := ih _ _ _ _ h
          refine ⟨?_, ?_, ?_, ?_, ?_⟩ <;>
            simp [e1, e2, e3, e4, e5, List.countP_cons, analyzed_pred,
              forbids_pred, using_pred, summed_used, hur]
        | false =>
          simp only [get_dep_report_loop, hloc, hur, hbs, if_false] at h
          obtain ⟨e1, e2, e3, e4, e5⟩ := ih _ _ _ _ h
          refine ⟨?_, ?_, ?_, ?_, ?_⟩ <;>
            simp [e1, e2, e3, e4, e5, List.countP_cons, analyzed_pred,
              forbids_pred, using_pred, summed_used, hur]
      | some ur =>
        cases hforb : UnsafeReport.forbids_unsafe ur with
        | true =>
          cases hbs : package.has_build_script with
          | true =>
            simp only [get_dep_report_loop, hloc, hur, hforb, hbs,
              if_true] at h
            obtain ⟨e1, e2, e3, e4, e5⟩ := ih _ _ _ _ h
            refine ⟨?_, ?_, ?_, ?_, ?_⟩ <;>
              simp [e1, e2, e3, e4, e5, List.countP_cons, analyzed_pred,
                forbids_pred, using_pred, summed_used, hur, hforb] <;> omega
          | false =>
            simp only [get_dep_report_loop, hloc, hur, hforb, hbs,
              if_false] at h
            obtain ⟨e1, e2, e3, e4, e5⟩ := ih _ _ _ _ h
            refine ⟨?_, ?_, ?_, ?_, ?_⟩ <;>
              simp [e1, e2, e3, e4, e5, List.countP_cons, analyzed_pred,
                forbids_pred, using_pred, summed_used, hur, hforb] <;> omega
        | false =>
          by_cases hexpr : 0 < ur.used_unsafe_count.expressions
          · cases hbs : package.has_build_script with
            | true =>
              simp only [get_dep_report_loop, hloc, hur, hforb, hexpr, hbs,
                if_true] at h
              obtain ⟨e1, e2, e3, e4, e5⟩ := ih _ _ _ _ h
              refine ⟨?_, ?_, ?_, ?_, ?_⟩ <;>
                simp [e1, e2, e3, e4, e5, List.countP_cons, analyzed_pred,
                  forbids_pred, using_pred, summed_used, hur, hforb, hexpr]
                  <;> omega
            | false =>
              simp only [get_dep_report_loop, hloc, hur, hforb, hexpr, hbs,
                if_false] at h
              obtain ⟨e1, e2, e3, e4, e5⟩ := ih _ _ _ _ h
              refine ⟨?_, ?_, ?_, ?_, ?_⟩ <;>
                simp [e1, e2, e3, e4, e5, List.countP_cons, analyzed_pred,
                  forbids_pred, using_pred, summed_used, hur, hforb, hexpr]
                  <;> omega
          · cases hbs : package.has_build_script with
            | true =>
              simp only [get_dep_report_loop, hloc, hur, hforb, hexpr, hbs,
                if_true] at h
              obtain ⟨e1, e2, e3, e4, e5⟩ := ih _ _ _ _ h
              refine ⟨?_, ?_, ?_, ?_, ?_⟩ <;>
                simp [e1, e2, e3, e4, e5, List.countP_cons, analyzed_pred,
                  forbids_pred, using_pred, summed_used, hur, hforb, hexpr]
                  <;> omega
            | false =>
              simp only [get_dep_report_loop, hloc, hur, hforb, hexpr, hbs,
                if_false] at h
              obtain ⟨e1, e2, e3, e4, e5⟩ := ih _ _ _ _ h
              refine ⟨?_, ?_, ?_, ?_, ?_⟩ <;>
                simp [e1, e2, e3, e4, e5, List.countP_cons, analyzed_pred,
                  forbids_pred, using_pred, summed_used, hur, hforb, hexpr]
                  <;> omega

/-- No package is counted both as forbidding and as using unsafe code. -/
theorem forbids_using_disjoint (g : GeigerCache) (p : PkgMeta) :
    ¬(forbids_pred g p = true ∧ using_pred g p = true) := by
  intro hand
  obtain ⟨h1, h2⟩ := hand
  unfold forbids_pred at h1
  unfold using_pred at h2
  cases hur : get_unsafe_report g p.name p.version with
  | none => rw [hur] at h1; cases h1
  | some ur =>
    rw [hur] at h1 h2
    simp only [] at h1 h2
    simp at h1 h2
    simp [h1] at h2

/-- C6: in the report computed by `get_dep_report`, `deps_forbidding_unsafe`
counts exactly the packages with a present report that forbids unsafe;
`deps_using_unsafe` counts exactly the packages with a present,
non-forbidding report with used unsafe expressions > 0; the two predicates
are mutually exclusive; `deps_analyzed_for_unsafe` counts exactly the
present reports, and the summed used details fold the `used` counts of all
present reports — including forbidding ones — with the source's addition. -/
theorem get_dep_report_unsafe_counting (tokei : RPath → LOCReport)
    (gcache : GeigerCache) (cache : LocCache) (deps : List PkgMeta)
    (r : DepReport) (c : LocCache)
    (h : get_dep_report tokei gcache cache deps = .ok (r, c)) :
    DepReport.deps_forbidding_unsafe r = deps.countP (forbids_pred gcache) ∧
    DepReport.deps_using_unsafe r = deps.countP (using_pred gcache) ∧
    (∀ p : PkgMeta,
      ¬(forbids_pred gcache p = true ∧ using_pred gcache p = true)) ∧
    DepReport.deps_analyzed_for_unsafe r =
      deps.countP (analyzed_pred gcache) ∧
    DepReport.deps_total_used_unsafe_details r =
      summed_used gcache deps udZero := by
  obtain ⟨e1, e2, e3, e4, e5⟩ :=
    get_dep_report_loop_counters tokei gcache deps _ _ _ _ h
  refine ⟨by simpa using e3, by simpa using e4,
    fun p => forbids_using_disjoint gcache p, by simpa using e2,
    by simpa using e5⟩

/-- Geiger info with two used unsafe expressions. -/
def wUIu : UnsafeInfo := ⟨⟨0, 0⟩, ⟨0, 2⟩, ⟨0, 0⟩, ⟨0, 0⟩, ⟨0, 0⟩⟩

/-- A geiger record for a forbidding package. -/
def wGpF : GeigerPackageInfo := ⟨⟨⟨"f", "1.0.0"⟩⟩, ⟨wUI, wUI, true⟩⟩

/-- A geiger record for a package that uses unsafe expressions. -/
def wGpU : GeigerPackageInfo := ⟨⟨⟨"u", "1.0.0"⟩⟩, ⟨wUIu, wUI, false⟩⟩

/-- A geiger cache holding the forbidding and the using package; anything
else is a scanner gap. -/
def wG6 : GeigerCache := [(("f", "1.0.0"), wGpF), (("u", "1.0.0"), wGpU)]

/-- The forbidding package in the graph. -/
def wPkgF : PkgMeta := ⟨10, "f", "1.0.0", ["f", "Cargo.toml"], false, []⟩

/-- The unsafe-using package in the graph. -/
def wPkgU : PkgMeta := ⟨11, "u", "1.0.0", ["u", "Cargo.toml"], false, []⟩

/-- A package absent from the scanner output. -/
def wPkgA : PkgMeta := ⟨12, "x", "1.0.0", ["x", "Cargo.toml"], false, []⟩

/-- The dependency list for the C6 witness. -/
def wDeps6 : List PkgMeta := [wPkgF, wPkgU, wPkgA]

/-- The dependency report `get_dep_report` computes on `wDeps6`. -/
def wR6 : DepReport := ⟨3, ⟨30, 15⟩, 0, 2, 1, 1, ⟨0, 2, 2, 0, 0⟩⟩

/-- The loc cache after the C6 witness run. -/
def wC6 : LocCache := [(["x"], ⟨10, 5⟩), (["u"], ⟨10, 5⟩), (["f"], ⟨10, 5⟩)]

/-- C6 witness: on a concrete three-package list (forbidding, using, and a
scanner gap) the counters are 1 forbidding, 1 using, 2 analyzed, and the
summed details fold both present reports. -/
theorem get_dep_report_unsafe_counting_witness :
    DepReport.deps_forbidding_unsafe wR6 =
      List.countP (forbids_pred wG6) wDeps6 ∧
    DepReport.deps_using_unsafe wR6 = List.countP (using_pred wG6) wDeps6 ∧
    (∀ p : PkgMeta,
      ¬(forbids_pred wG6 p = true ∧ using_pred wG6 p = true)) ∧
    DepReport.deps_analyzed_for_unsafe wR6 =
      List.countP (analyzed_pred wG6) wDeps6 ∧
    DepReport.deps_total_used_unsafe_details wR6 =
      summed_used wG6 wDeps6 udZero :=
  get_dep_report_unsafe_counting wTokei wG6 [] wDeps6 wR6 wC6 rfl

/-- Every value stored in the loc cache is the tokei result of its key. -/
def cacheInv (tokei : RPath → LOCReport) (cache : LocCache) : Prop :=
  ∀ k v, cache.lookup k = some v → v = tokei k

/-- Lemma: `get_loc_report` preserves the cache invariant and, under it, returns
exactly the tokei result of the manifest's parent directory. -/
theorem get_loc_report_inv (tokei : RPath → LOCReport) (cache : LocCache)
    (p : RPath) (res : LOCReport) (cache' : LocCache)
    (hinv : cacheInv tokei cache)
    (h : get_loc_report tokei cache p = .ok (res, cache')) :
    cacheInv tokei cache' ∧
      ∃ dir, RPath.parent p = some dir ∧ res = tokei dir := by
  unfold get_loc_report get_loc_report_traced at h
  cases hp : RPath.parent p with
  | none => simp [hp] at h
  | some dir =>
    simp only [hp] at h
    cases hl : cache.lookup dir with
    | some rep =>
      simp only [hl] at h
      cases h
      exact ⟨hinv, dir, rfl, hinv dir _ hl⟩
    | none =>
      simp only [hl] at h
      cases h
      refine ⟨?_, dir, rfl, rfl⟩
      intro k v hk
      rw [lookup_cons_unfold] at hk
      by_cases hkd : (k == dir) = true
      · rw [if_pos hkd] at hk
        cases hk
        rw [eq_of_beq hkd]
      · rw [if_neg hkd] at hk
        exact hinv k v hk

/-- The LOC contribution of one package: the tokei result of its manifest's
parent directory (zero when the manifest has no parent, a case in which the
run errors anyway). -/
def locOf (tokei : RPath → LOCReport) (p : PkgMeta) : LOCReport :=
  match RPath.parent p.manifest_path with
  | some dir => tokei dir
  | none => ⟨0, 0⟩

/-- The fold of LOC reports over a dependency list. -/
def locSum (tokei : RPath → LOCReport) (deps : List PkgMeta)
    (init : LOCReport) : LOCReport :=
  deps.foldl (fun acc p => LOCReport.add acc (locOf tokei p)) init

/-- Total component of `locSum` as a numeric sum. -/
theorem locSum_total (tokei : RPath → LOCReport) (deps : List PkgMeta) :
    ∀ init : LOCReport, (locSum tokei deps init).total_loc =
      init.total_loc +
        (deps.map fun p => (locOf tokei p).total_loc).sum := by
  induction deps with
  | nil => intro init; simp [locSum]
  | cons p rest ih =>
    intro init
    have hstep : locSum tokei (p :: rest) init =
        locSum tokei rest (LOCReport.add init (locOf tokei p)) := rfl
    rw [hstep, ih]
    simp [LOCReport.add]
    omega

/-- Rust-loc component of `locSum` as a numeric sum. -/
theorem locSum_rust (tokei : RPath → LOCReport) (deps : List PkgMeta) :
    ∀ init : LOCReport, (locSum tokei deps init).rust_loc =
      init.rust_loc +
        (deps.map fun p => (locOf tokei p).rust_loc).sum := by
  induction deps with
  | nil => intro init; simp [locSum]
  | cons p rest ih =>
    intro init
    have hstep : locSum tokei (p :: rest) init =
        locSum tokei rest (LOCReport.add init (locOf tokei p)) := rfl
    rw [hstep, ih]
    simp [LOCReport.add]
    omega

/-- Two LOC reports with equal components are equal. -/
theorem LOCReport.eq_of_components (a b : LOCReport)
    (h1 : a.total_loc = b.total_loc) (h2 : a.rust_loc = b.rust_loc) :
    a = b := by
  cases a
  cases b
  simp_all

/-- The LOC field of the dependency-report loop is the fold of per-package
tokei results, and the cache invariant is maintained. -/
theorem get_dep_report_loop_loc (tokei : RPath → LOCReport)
    (gcache : GeigerCache) (l : List PkgMeta) :
    ∀ (acc : DepReport) (cache : LocCache) (r : DepReport) (c : LocCache),
      cacheInv tokei cache →
      get_dep_report_loop tokei gcache l acc cache = .ok (r, c) →
      DepReport.deps_total_loc_report r =
        locSum tokei l (DepReport.deps_total_loc_report acc) ∧
      cacheInv tokei c := by
  induction l with
  | nil =>
    intro acc cache r c hinv h
    simp only [get_dep_report_loop] at h
    cases h
    exact ⟨rfl, hinv⟩
  | cons package rest ih =>
    intro acc cache r c hinv h
    cases hloc : get_loc_report tokei cache package.manifest_path with
    | error e =>
      rw [show get_dep_report_loop tokei gcache (package :: rest) acc cache =
        .error e by simp [get_dep_report_loop, hloc]] at h
      cases h
    | ok locpair =>
      obtain ⟨loc_report, cache1⟩ := locpair
      obtain ⟨hinv1, dir, hdir, hval⟩ :=
        get_loc_report_inv tokei cache package.manifest_path loc_report
          cache1 hinv hloc
      have hlocof : locOf tokei package = loc_report := by
        simp [locOf, hdir, hval]
      cases hur : get_unsafe_report gcache package.name package.version with
      | none =>
        cases hbs : package.has_build_script with
        | true =>
          simp only [get_dep_report_loop, hloc, hur, hbs, if_true] at h
          obtain ⟨e, hinvc⟩ := ih _ _ _ _ hinv1 h
          refine ⟨?_, hinvc⟩
          rw [e]
          simp [locSum, hlocof]
        | false =>
          simp only [get_dep_report_loop, hloc, hur, hbs, if_false] at h
          obtain ⟨e, hinvc⟩ := ih _ _ _ _ hinv1 h
          refine ⟨?_, hinvc⟩
          rw [e]
          simp [locSum, hlocof]
      | some ur =>
        cases hforb : UnsafeReport.forbids_unsafe ur with
        | true =>
          cases hbs : package.has_build_script with
          | true =>
            simp only [get_dep_report_loop, hloc, hur, hforb, hbs,
              if_true] at h
            obtain ⟨e, hinvc⟩ := ih _ _ _ _ hinv1 h
            refine ⟨?_, hinvc⟩
            rw [e]
            simp [locSum, hlocof]
          | false =>
            simp only [get_dep_report_loop, hloc, hur, hforb, hbs,
              if_false] at h
            obtain ⟨e, hinvc⟩ := ih _ _ _ _ hinv1 h
            refine ⟨?_, hinvc⟩
            rw [e]
            simp [locSum, hlocof]
        | false =>
          by_cases hexpr : 0 < ur.used_unsafe_count.expressions
          · cases hbs : package.has_build_script with
            | true =>
              simp only [get_dep_report_loop, hloc, hur, hforb, hexpr, hbs,
                if_true] at h
              obtain ⟨e, hinvc⟩ := ih _ _ _ _ hinv1 h
              refine ⟨?_, hinvc⟩
              rw [e]
              simp [locSum, hlocof]
            | false =>
              simp only [get_dep_report_loop, hloc, hur, hforb, hexpr, hbs,
                if_false] at h
              obtain ⟨e, hinvc⟩ := ih _ _ _ _ hinv1 h
              refine ⟨?_, hinvc⟩
              rw [e]
              simp [locSum, hlocof]
          · cases hbs : package.has_build_script with
            | true =>
              simp only [get_dep_report_loop, hloc, hur, hforb, hexpr, hbs,
                if_true] at h
              obtain ⟨e, hinvc⟩ := ih _ _ _ _ hinv1 h
              refine ⟨?_, hinvc⟩
              rw [e]
              simp [locSum, hlocof]
            | false =>
              simp only [get_dep_report_loop, hloc, hur, hforb, hexpr, hbs,
                if_false] at h
              obtain ⟨e, hinvc⟩ := ih _ _ _ _ hinv1 h
              refine ⟨?_, hinvc⟩
              rw [e]
              simp [locSum, hlocof]

/-- Lemma: `summed_used` over an appended list. -/
theorem summed_used_append (g : GeigerCache) (l1 l2 : List PkgMeta)
    (init : UnsafeDetails) :
    summed_used g (l1 ++ l2) init = summed_used g l2 (summed_used g l1 init) := by
  simp [summed_used, List.foldl_append]

/-- An absent package contributes nothing to `summed_used`. -/
theorem summed_used_cons_absent (g : GeigerCache) (p : PkgMeta)
    (l : List PkgMeta) (init : UnsafeDetails)
    (habsent : get_unsafe_report g p.name p.version = none) :
    summed_used g (p :: l) init = summed_used g l init := by
  simp only [summed_used, List.foldl_cons, habsent]

/-- C5: a package whose unsafe-report lookup is absent from the scanner
cache still contributes to `total_deps` and to the summed LOC report of the
`DepReport`, but contributes nothing to `deps_analyzed_for_unsafe`,
`deps_forbidding_unsafe`, `deps_using_unsafe` or
`deps_total_used_unsafe_details`: all four unsafe aggregates equal those of
the list with the package removed, while the total is one more and the LOC
sum additionally includes the package's own tokei result — absence is
skipped, never coerced to a zero report. -/
theorem get_dep_report_scanner_gap (tokei : RPath → LOCReport)
    (gcache : GeigerCache) (cache : LocCache) (l1 l2 : List PkgMeta)
    (p : PkgMeta) (dirp : RPath) (r : DepReport) (c : LocCache)
    (hinv : cacheInv tokei cache)
    (habsent : get_unsafe_report gcache p.name p.version = none)
    (hdir : RPath.parent p.manifest_path = some dirp)
    (h : get_dep_report tokei gcache cache (l1 ++ p :: l2) = .ok (r, c)) :
    DepReport.total_deps r = (l1 ++ l2).length + 1 ∧
    DepReport.deps_total_loc_report r =
      LOCReport.add (locSum tokei (l1 ++ l2) ⟨0, 0⟩) (tokei dirp) ∧
    DepReport.deps_analyzed_for_unsafe r =
      (l1 ++ l2).countP (analyzed_pred gcache) ∧
    DepReport.deps_forbidding_unsafe r =
      (l1 ++ l2).countP (forbids_pred gcache) ∧
    DepReport.deps_using_unsafe r = (l1 ++ l2).countP (using_pred gcache) ∧
    DepReport.deps_total_used_unsafe_details r =
      summed_used gcache (l1 ++ l2) udZero := by
  obtain ⟨e1, e2, e3, e4, e5⟩ :=
    get_dep_report_loop_counters tokei gcache (l1 ++ p :: l2) _ _ _ _ h
  obtain ⟨eloc, -⟩ :=
    get_dep_report_loop_loc tokei gcache (l1 ++ p :: l2) _ _ _ _ hinv h
  have hpa : analyzed_pred gcache p = false := by
    simp [analyzed_pred, habsent]
  have hpf : forbids_pred gcache p = false := by
    simp [forbids_pred, habsent]
  have hpu : using_pred gcache p = false := by
    simp [using_pred, habsent]
  have hp_total : (locOf tokei p).total_loc = (tokei dirp).total_loc := by
    simp [locOf, hdir]
  have hp_rust : (locOf tokei p).rust_loc = (tokei dirp).rust_loc := by
    simp [locOf, hdir]
  refine ⟨?_, ?_, ?_, ?_, ?_, ?_⟩
  · rw [e1]
    simp [List.length_append]
    omega
  · refine LOCReport.eq_of_components _ _ ?_ ?_
    · rw [eloc]
      simp [locSum_total, LOCReport.add, List.map_append, List.sum_append,
        List.map_cons, List.sum_cons, hp_total]
      omega
    · rw [eloc]
      simp [locSum_rust, LOCReport.add, List.map_append, List.sum_append,
        List.map_cons, List.sum_cons, hp_rust]
      omega
  · rw [e2]
    simp [List.countP_append, List.countP_cons, hpa]
  · rw [e3]
    simp [List.countP_append, List.countP_cons, hpf]
  · rw [e4]
    simp [List.countP_append, List.countP_cons, hpu]
  · rw [e5]
    rw [summed_used_append gcache l1 (p :: l2),
      summed_used_cons_absent gcache p l2 _ habsent,
      ← summed_used_append gcache l1 l2]

/-- The dependency report of the C5 witness run `[wPkgF, wPkgA]`. -/
def wR5 : DepReport := ⟨2, ⟨20, 10⟩, 0, 1, 1, 0, udZero⟩

/-- The loc cache after the C5 witness run. -/
def wC5 : LocCache := [(["x"], ⟨10, 5⟩), (["f"], ⟨10, 5⟩)]

/-- C5 witness: the scanner-gap package `wPkgA` raises the total to 2 and
adds its LOC, while all unsafe aggregates equal those of `[wPkgF]` alone. -/
theorem get_dep_report_scanner_gap_witness :
    DepReport.total_deps wR5 = [wPkgF].length + 1 ∧
    DepReport.deps_total_loc_report wR5 =
      LOCReport.add (locSum wTokei [wPkgF] ⟨0, 0⟩) (wTokei ["x"]) ∧
    DepReport.deps_analyzed_for_unsafe wR5 =
      List.countP (analyzed_pred wG6) [wPkgF] ∧
    DepReport.deps_forbidding_unsafe wR5 =
      List.countP (forbids_pred wG6) [wPkgF] ∧
    DepReport.deps_using_unsafe wR5 = List.countP (using_pred wG6) [wPkgF] ∧
    DepReport.deps_total_used_unsafe_details wR5 =
      summed_used wG6 [wPkgF] udZero :=
  get_dep_report_scanner_gap wTokei wG6 [] [wPkgF] [] wPkgA ["x"] wR5 wC5
    (by intro k v hk; simp [List.lookup] at hk) (by decide) (by decide) rfl

/-- If a cons cell lookup misses, so does the tail lookup. -/
theorem lookup_cons_none {α β : Type} [BEq α] (k k' : α) (v' : β)
    (l : List (α × β)) (h : List.lookup k ((k', v') :: l) = none) :
    List.lookup k l = none := by
  rw [lookup_cons_unfold] at h
  by_cases hk : (k == k') = true
  · rw [if_pos hk] at h
    cases h
  · rwa [if_neg hk] at h

/-- The scan log of a `get_loc_report` run has no duplicates and scans only
directories that were absent from the starting cache. -/
theorem loc_run_log_scans (tokei : RPath → LOCReport) (reqs : List RPath) :
    ∀ cache : LocCache,
      ((loc_run tokei reqs cache).2).Nodup ∧
      ∀ d ∈ (loc_run tokei reqs cache).2, cache.lookup d = none := by
  induction reqs with
  | nil =>
    intro cache
    constructor
    · simp [loc_run]
    · intro d hd
      simp [loc_run] at hd
  | cons p rest ih =>
    intro cache
    cases hp : RPath.parent p with
    | none =>
      have hred : (loc_run tokei (p :: rest) cache).2 =
          (loc_run tokei rest cache).2 := by
        simp [loc_run, get_loc_report_traced, hp]
      rw [hred]
      exact ih cache
    | some dir =>
      cases hl : cache.lookup dir with
      | some rep =>
        have hred : (loc_run tokei (p :: rest) cache).2 =
            (loc_run tokei rest cache).2 := by
          simp [loc_run, get_loc_report_traced, hp, hl]
        rw [hred]
        exact ih cache
      | none =>
        have hred : (loc_run tokei (p :: rest) cache).2 =
            dir :: (loc_run tokei rest ((dir, tokei dir) :: cache)).2 := by
          simp [loc_run, get_loc_report_traced, hp, hl]
        obtain ⟨hnd, hmem⟩ := ih ((dir, tokei dir) :: cache)
        rw [hred]
        constructor
        · rw [List.nodup_cons]
          refine ⟨fun hmem2 => ?_, hnd⟩
          have hdup := hmem dir hmem2
          rw [lookup_cons_unfold] at hdup
          simp at hdup
        · intro d hd
          rcases List.mem_cons.mp hd with hd' | hd'
          · rw [hd']
            exact hl
          · exact lookup_cons_none d dir (tokei dir) cache (hmem d hd')

/-- C7: the line-count collaborator is invoked at most once per unique
source directory in a run: (i) over any sequence of `get_loc_report` calls
starting from the empty cache, the ghost scan log has no duplicates;
(ii) a call whose directory is already cached returns the cached value with
the cache unchanged and an empty scan log; (iii) a repeated call with the
same manifest path returns the same `LOCReport` and the same cache. -/
theorem loc_report_single_scan :
    (∀ (tokei : RPath → LOCReport) (reqs : List RPath),
      ((loc_run tokei reqs []).2).Nodup) ∧
    (∀ (tokei : RPath → LOCReport) (cache : LocCache) (p dir : RPath)
        (r : LOCReport),
      RPath.parent p = some dir → cache.lookup dir = some r →
      get_loc_report_traced tokei cache p = (.ok (r, cache), [])) ∧
    (∀ (tokei : RPath → LOCReport) (cache cache' : LocCache) (p : RPath)
        (r : LOCReport),
      get_loc_report tokei cache p = .ok (r, cache') →
      get_loc_report tokei cache' p = .ok (r, cache')) := by
  refine ⟨fun tokei reqs => (loc_run_log_scans tokei reqs []).1, ?_, ?_⟩
  · intro tokei cache p dir r h1 h2
    simp [get_loc_report_traced, h1, h2]
  · intro tokei cache cache' p r h
    unfold get_loc_report get_loc_report_traced at h ⊢
    cases hp : RPath.parent p with
    | none => simp [hp] at h
    | some dir =>
      simp only [hp] at h ⊢
      cases hl : cache.lookup dir with
      | some rep =>
        simp only [hl] at h
        cases h
        simp [hl]
      | none =>
        simp only [hl] at h
        cases h
        simp [lookup_cons_unfold]

/-- A cache already holding the directory of the C7 witness. -/
def wCache7 : LocCache := [(["a"], ⟨1, 1⟩)]

/-- C7 witness: a call whose directory is cached returns the cached report,
leaves the cache unchanged, and performs no scan. -/
theorem loc_report_single_scan_witness :
    get_loc_report_traced wTokei wCache7 ["a", "Cargo.toml"] =
      (.ok (⟨1, 1⟩, wCache7), []) :=
  loc_report_single_scan.2.1 wTokei wCache7 ["a", "Cargo.toml"] ["a"] ⟨1, 1⟩
    (by decide) (by decide)
